import Mathlib

/-!
Shallow embedding of `velox/functions/prestosql/Sequence.cpp`: the vectorized
`sequence(start, stop[, step])` kernel over three element domains (64-bit
integers, dates, timestamps).  Machine integers are modelled as `Int` with
explicit two's-complement reduction (`wrapInt`) at the widths the source
uses (`int64_t` arithmetic in `add`/`step * i`, `int128_t` in the count
computation).  Per-row user errors are modelled with `Except`.
-/

namespace Velox

/-- Two's-complement wraparound at width `w`: reduces an unbounded integer to
the representative in `[-2^(w-1), 2^(w-1))`. -/
def wrapInt (w : Nat) (x : Int) : Int :=
  (x + 2 ^ (w - 1)) % 2 ^ w - 2 ^ (w - 1)

/-- `int64_t` wraparound. -/
def wrap64 (x : Int) : Int := wrapInt 64 x

/-- `int128_t` wraparound. -/
def wrap128 (x : Int) : Int := wrapInt 128 x

/-- The user-input error kinds raised by the kernel (spec section 7):
`VELOX_USER_CHECK_NE(step, 0, ...)`, the direction check, the 10'000-entry
cap in `checkArguments`, and the whole-day check in `getStep`. -/
inductive SeqError where
  | ZeroStep
  | DirectionMismatch
  | ResultTooLarge
  | InvalidDateStepUnit
deriving DecidableEq

/-- Modelled from the spec: the constant `kMillisInDay` (milliseconds per
day) used by `getStep`; its definition lives outside `src/`. -/
def kMillisInDay : Int := 86400000

/-- `SequenceFunction::kMaxResultEntries = 10'000`. -/
def kMaxResultEntries : Int := 10000

/-- The C++ condition `step > 0 ? stop >= start : stop <= start` from
`checkArguments`. -/
def directionOk (start stop step : Int) : Bool :=
  if 0 < step then decide (start ≤ stop) else decide (stop ≤ start)

/-- `SequenceFunction::getStep`: infer the effective ordinal step for one
row.  `rawStep` is the decoded step-column value at the row (`none` when the
call has no step argument).  C++ `%` and `/` are truncated division, hence
`Int.tmod` / `Int.tdiv`. -/
def getStep (start stop : Int) (rawStep : Option Int) (isDate : Bool) :
    Except SeqError Int :=
  match rawStep with
  | none => .ok (if start ≤ stop then 1 else -1)
  | some step =>
    if isDate = false then .ok step
    else if step.tmod kMillisInDay = 0 then .ok (step.tdiv kMillisInDay)
    else .error .InvalidDateStepUnit

/-- The `int128_t` count computation in `checkArguments`:
`((int128_t)stop - (int128_t)start) / step + 1`, with every intermediate
held in a 128-bit signed register. -/
def sequenceCount128 (start stop step : Int) : Int :=
  wrap128 (Int.tdiv (wrap128 (stop - start)) step + 1)

/-- `SequenceFunction::checkArguments`: per-row validation returning the
sequence length, or the user error the corresponding `VELOX_USER_CHECK`
raises. -/
def checkArguments (start stop step : Int) : Except SeqError Int :=
  if step = 0 then .error .ZeroStep
  else if directionOk start stop step then
    if kMaxResultEntries < sequenceCount128 start stop step then
      .error .ResultTooLarge
    else .ok (sequenceCount128 start stop step)
  else .error .DirectionMismatch

/-- One element domain of `SequenceFunction<T>`: the conversion
`toInt64 : T -> int64_t`, the reconstruction `add : T -> int64_t -> T`, and
whether `args[0]->type()->isDate()` holds for this instantiation. -/
structure SeqDomain (T : Type) where
  toInt64 : T → Int
  add : T → Int → T
  isDate : Bool

/-- Modelled from the spec: the `Date` value type (its header is outside
`src/`); per spec section 3 its ordinal is a day count held losslessly in
the 64-bit representation. -/
structure Date where
  days : Int
deriving DecidableEq

/-- Modelled from the spec: the `Timestamp` value type (its header is
outside `src/`); per spec section 3 its ordinal is a millisecond count held
losslessly in the 64-bit representation, with `toMillis`/`fromMillis`
mutually inverse. -/
structure Timestamp where
  millis : Int
deriving DecidableEq

/-- `SequenceFunction<int64_t>`: `toInt64` is the identity and `add` is
`int64_t` addition. -/
def intDomain : SeqDomain Int :=
  ⟨fun v => v, fun v steps => wrap64 (v + steps), false⟩

/-- `SequenceFunction<Date>`: `toInt64` reads `value.days()` and `add`
rebuilds `Date(value.days() + steps)`. -/
def dateDomain : SeqDomain Date :=
  ⟨fun d => d.days, fun d steps => ⟨d.days + steps⟩, true⟩

/-- `SequenceFunction<Timestamp>`: `toInt64` is `value.toMillis()` and `add`
is `Timestamp::fromMillis(value.toMillis() + steps)`. -/
def timestampDomain : SeqDomain Timestamp :=
  ⟨fun t => t.millis, fun t steps => ⟨t.millis + steps⟩, false⟩

/-- The `getStep` call sites in `apply` and `writeToElements`: derive the
row's effective step from the decoded columns. -/
def rowStep {T : Type} (d : SeqDomain T) (startV stopV : Nat → T)
    (stepV : Option (Nat → Int)) (row : Nat) : Except SeqError Int :=
  getStep (d.toInt64 (startV row)) (d.toInt64 (stopV row))
    (stepV.map fun f => f row) d.isDate

/-- The body of the first `applyToSelectedNoThrow` lambda: `getStep`
followed by `checkArguments`; the first user error raised is the row's
error. -/
def rowResult {T : Type} (d : SeqDomain T) (startV stopV : Nat → T)
    (stepV : Option (Nat → Int)) (row : Nat) : Except SeqError Int :=
  match rowStep d startV stopV stepV row with
  | .error e => .error e
  | .ok step =>
      checkArguments (d.toInt64 (startV row)) (d.toInt64 (stopV row)) step

/-- `rawSizes[row]` after the first pass: the validated count, or the
zero-initialised value when the row raised (caught by
`applyToSelectedNoThrow`). -/
def rowSize {T : Type} (d : SeqDomain T) (startV stopV : Nat → T)
    (stepV : Option (Nat → Int)) (row : Nat) : Nat :=
  match rowResult d startV stopV stepV row with
  | .ok n => n.toNat
  | .error _ => 0

/-- The write loop of `writeToElements`:
`for (i = 0; i < sequenceCount; ++i) elements[i] = add(start, step * i);`,
writing into the shared buffer at offset `base`; `step * i` is an `int64_t`
product. -/
def writeSeq {T : Type} (d : SeqDomain T) (start : T) (step : Int)
    (base : Nat) : Nat → (Nat → T) → (Nat → T)
  | 0, buf => buf
  | n + 1, buf =>
      Function.update (writeSeq d start step base n buf) (base + n)
        (d.add start (wrap64 (step * (n : Int))))

/-- `SequenceFunction::writeToElements`: re-derive start/stop/step from the
decoded columns and run the write loop.  A `getStep` failure throws before
any element is written, leaving the buffer untouched. -/
def writeToElements {T : Type} (d : SeqDomain T) (base count : Nat)
    (startV stopV : Nat → T) (stepV : Option (Nat → Int)) (row : Nat)
    (buf : Nat → T) : Nat → T :=
  match rowStep d startV stopV stepV row with
  | .error _ => buf
  | .ok step => writeSeq d (startV row) step base count buf

/-- The sequence of values the fill pass produces for one row: length
`rowSize`, element `i` equal to `add(start, step * i)`. -/
def rowSeq {T : Type} (d : SeqDomain T) (startV stopV : Nat → T)
    (stepV : Option (Nat → Int)) (row : Nat) : List T :=
  match rowStep d startV stopV stepV row with
  | .error _ => []
  | .ok step =>
      (List.range (rowSize d startV stopV stepV row)).map fun i : Nat =>
        d.add (startV row) (wrap64 (step * (i : Int)))

/-- The first `applyToSelectedNoThrow` pass: populate `rawSizes` (starting
from the zero-initialised `allocateSizes` buffer) over the selected rows in
order. -/
def sizePass {T : Type} (d : SeqDomain T) (startV stopV : Nat → T)
    (stepV : Option (Nat → Int)) : List Nat → (Nat → Nat) → (Nat → Nat)
  | [], sizes => sizes
  | row :: rest, sizes =>
      sizePass d startV stopV stepV rest
        (Function.update sizes row (rowSize d startV stopV stepV row))

/-- Mutable state of the second pass: `rawOffsets`, the element buffer, and
the running `elementsOffset`. -/
structure FillState (T : Type) where
  offs : Nat → Nat
  buf : Nat → T
  next : Nat

/-- The second `applyToSelectedNoThrow` pass: for each selected row with a
nonzero count, record its offset, fill its slice, and advance
`elementsOffset`. -/
def fillPass {T : Type} (d : SeqDomain T) (startV stopV : Nat → T)
    (stepV : Option (Nat → Int)) (sizes : Nat → Nat) :
    List Nat → FillState T → FillState T
  | [], s => s
  | row :: rest, s =>
      if sizes row ≠ 0 then
        fillPass d startV stopV stepV sizes rest
          ⟨Function.update s.offs row s.next,
           writeToElements d s.next (sizes row) startV stopV stepV row s.buf,
           s.next + sizes row⟩
      else fillPass d startV stopV stepV sizes rest s

/-- The array-vector triple `apply` hands to `moveOrCopyResult`: per-row
sizes, per-row offsets, and the flat element buffer. -/
structure SeqResult (T : Type) where
  sizes : Nat → Nat
  offs : Nat → Nat
  elems : List T

/-- `SequenceFunction::apply` on one batch: `sel` lists the selected row
indices in ascending order, `startV`/`stopV`/`stepV` are the decoded
argument columns, and `dflt` is the freshly-created element vector's
initial value.  Pass one sizes every selected row and accumulates
`numElements`; pass two fills the element buffer. -/
def applyKernel {T : Type} (d : SeqDomain T) (dflt : T) (sel : List Nat)
    (startV stopV : Nat → T) (stepV : Option (Nat → Int)) : SeqResult T :=
  let sizes := sizePass d startV stopV stepV sel (fun _ => 0)
  let total :=
    List.foldl (fun acc row => acc + rowSize d startV stopV stepV row) 0 sel
  let s := fillPass d startV stopV stepV sizes sel ⟨fun _ => 0, fun _ => dflt, 0⟩
  ⟨sizes, s.offs, (List.range total).map s.buf⟩

/-! ### Arithmetic helper lemmas -/

lemma two_pow_split (w : Nat) (hw : 1 ≤ w) : (2 : Int) ^ w = 2 ^ (w - 1) + 2 ^ (w - 1) := by
  have h : w - 1 + 1 = w := by omega
  calc (2 : Int) ^ w = 2 ^ (w - 1 + 1) := by rw [h]
    _ = 2 ^ (w - 1) * 2 := pow_succ _ _
    _ = 2 ^ (w - 1) + 2 ^ (w - 1) := by ring

lemma wrapInt_eq_self {w : Nat} (hw : 1 ≤ w) {x : Int} (h1 : -(2 ^ (w - 1)) ≤ x)
    (h2 : x < 2 ^ (w - 1)) : wrapInt w x = x := by
  unfold wrapInt
  have hs := two_pow_split w hw
  have h0 : 0 ≤ x + 2 ^ (w - 1) := by linarith
  have hlt : x + 2 ^ (w - 1) < 2 ^ w := by rw [hs]; linarith
  rw [Int.emod_eq_of_lt h0 hlt]
  ring

lemma wrapInt_add_absorb (w : Nat) (x y : Int) :
    wrapInt w (x + wrapInt w y) = wrapInt w (x + y) := by
  unfold wrapInt
  have key : x + ((y + 2 ^ (w - 1)) % 2 ^ w - 2 ^ (w - 1)) + 2 ^ (w - 1)
      = (x + y + 2 ^ (w - 1)) + 2 ^ w * (-((y + 2 ^ (w - 1)) / 2 ^ w)) := by
    rw [Int.emod_def]
    ring
  rw [key, Int.add_mul_emod_self_left]

lemma wrap64_eq_self {x : Int} (h1 : -(2 ^ 63) ≤ x) (h2 : x < 2 ^ 63) : wrap64 x = x :=
  wrapInt_eq_self (by norm_num) h1 h2

lemma neg_tmod (a b : Int) : (-a).tmod b = -(a.tmod b) := by
  rw [Int.tmod_def, Int.tmod_def, Int.neg_tdiv]
  ring

lemma tmod_abs_lt {b : Int} (hb : b ≠ 0) (a : Int) : |a.tmod b| < |b| := by
  have hB : 0 < |b| := abs_pos.mpr hb
  have hnorm : ∀ z : Int, z.tmod b = z.tmod |b| := by
    intro z
    rcases abs_choice b with h | h
    · rw [h]
    · rw [h, Int.tmod_neg]
  have main : ∀ z : Int, 0 ≤ z → |z.tmod b| < |b| := by
    intro z hz
    rw [hnorm]
    rw [abs_of_nonneg (Int.tmod_nonneg _ hz)]
    exact Int.tmod_lt_of_pos z hB
  rcases le_or_lt 0 a with ha | ha
  · exact main a ha
  · have : a.tmod b = -((-a).tmod b) := by rw [neg_tmod]; ring
    rw [this, abs_neg]
    exact main (-a) (by omega)

lemma tdiv_abs_le (a b : Int) : (a.tdiv b).natAbs ≤ a.natAbs := by
  rw [Int.natAbs_tdiv]
  exact Nat.div_le_self _ _

lemma tdiv_mul_le {d step : Int} (hd : 0 ≤ d) (hs : 0 < step) {i : Int}
    (hiq : i ≤ d.tdiv step) : step * i ≤ d := by
  have hq : d.tdiv step = d / step := Int.tdiv_eq_ediv hd (le_of_lt hs)
  have h1 : step * (d / step) ≤ d := by
    have he := Int.ediv_add_emod d step
    have hm : 0 ≤ d % step := Int.emod_nonneg d (ne_of_gt hs)
    linarith
  have h2 : step * i ≤ step * (d.tdiv step) :=
    mul_le_mul_of_nonneg_left hiq (le_of_lt hs)
  rw [hq] at h2
  linarith

lemma tdiv_nonneg_aligned {d step : Int}
    (h : 0 ≤ d ∧ 0 < step ∨ d ≤ 0 ∧ step < 0) : 0 ≤ d.tdiv step := by
  rcases h with ⟨hd, hs⟩ | ⟨hd, hs⟩
  · exact Int.tdiv_nonneg hd (le_of_lt hs)
  · rw [← Int.neg_tdiv_neg]
    exact Int.tdiv_nonneg (by omega) (by omega)

lemma directionOk_iff {a b step : Int} :
    directionOk a b step = true ↔ (0 < step ∧ a ≤ b) ∨ (¬0 < step ∧ b ≤ a) := by
  unfold directionOk
  by_cases h : 0 < step <;> simp [h]

lemma seq_elem_between {a b step i : Int} (hstep : step ≠ 0)
    (hdir : directionOk a b step = true) (hi0 : 0 ≤ i)
    (hiq : i ≤ (b - a).tdiv step) :
    (a ≤ a + step * i ∧ a + step * i ≤ b) ∨
      (b ≤ a + step * i ∧ a + step * i ≤ a) := by
  rcases directionOk_iff.mp hdir with ⟨hs, hab⟩ | ⟨hs, hba⟩
  · left
    constructor
    · nlinarith
    · have := tdiv_mul_le (show (0 : Int) ≤ b - a by omega) hs hiq
      linarith
  · right
    have hs' : step < 0 := by omega
    have hq : (b - a).tdiv step = (a - b).tdiv (-step) := by
      rw [← Int.neg_tdiv_neg]
      congr 1
      ring
    rw [hq] at hiq
    have h1 : (-step) * i ≤ a - b := tdiv_mul_le (by omega) (by omega) hiq
    constructor
    · linarith
    · nlinarith

lemma last_elem_near {a b step : Int} (hstep : step ≠ 0) :
    |a + step * ((b - a).tdiv step) - b| < |step| := by
  have key : a + step * ((b - a).tdiv step) - b = -((b - a).tmod step) := by
    have ht := Int.tdiv_add_tmod (b - a) step
    linarith
  rw [key, abs_neg]
  exact tmod_abs_lt hstep _

/-! ### Inversion lemmas for validation -/

lemma int64_diff_natAbs_le {a b : Int} (ha1 : -(2 ^ 63) ≤ a) (ha2 : a < 2 ^ 63)
    (hb1 : -(2 ^ 63) ≤ b) (hb2 : b < 2 ^ 63) :
    (b - a).natAbs ≤ 18446744073709551616 := by
  have h63 : (2 : Int) ^ 63 = 9223372036854775808 := by norm_num
  rw [h63] at ha1 ha2 hb1 hb2
  omega

lemma sequenceCount128_eq {a b : Int} (step : Int)
    (ha1 : -(2 ^ 63) ≤ a) (ha2 : a < 2 ^ 63)
    (hb1 : -(2 ^ 63) ≤ b) (hb2 : b < 2 ^ 63) :
    sequenceCount128 a b step = (b - a).tdiv step + 1 := by
  have hd := int64_diff_natAbs_le ha1 ha2 hb1 hb2
  have hq := tdiv_abs_le (b - a) step
  unfold sequenceCount128 wrap128
  have hinner : wrapInt 128 (b - a) = b - a := by
    apply wrapInt_eq_self (by norm_num)
    · have h127 : (2 : Int) ^ (128 - 1) = 170141183460469231731687303715884105728 := by
        norm_num
      rw [h127]
      omega
    · have h127 : (2 : Int) ^ (128 - 1) = 170141183460469231731687303715884105728 := by
        norm_num
      rw [h127]
      omega
  rw [hinner]
  apply wrapInt_eq_self (by norm_num)
  · have h127 : (2 : Int) ^ (128 - 1) = 170141183460469231731687303715884105728 := by
      norm_num
    rw [h127]
    omega
  · have h127 : (2 : Int) ^ (128 - 1) = 170141183460469231731687303715884105728 := by
      norm_num
    rw [h127]
    omega

lemma checkArguments_ok_inv {a b step n : Int}
    (h : checkArguments a b step = .ok n) :
    step ≠ 0 ∧ directionOk a b step = true ∧ n = sequenceCount128 a b step ∧
      n ≤ kMaxResultEntries := by
  unfold checkArguments at h
  split at h
  · simp at h
  · split at h
    · split at h
      · simp at h
      · rename_i h0 hdir hbig
        cases h
        exact ⟨h0, hdir, rfl, by omega⟩
    · simp at h

lemma checkArguments_ok_of {a b step : Int} (h0 : step ≠ 0)
    (hdir : directionOk a b step = true)
    (hle : sequenceCount128 a b step ≤ kMaxResultEntries) :
    checkArguments a b step = .ok (sequenceCount128 a b step) := by
  unfold checkArguments
  rw [if_neg h0, if_pos hdir, if_neg (by omega)]

lemma checkArguments_zerostep_iff {a b step : Int} :
    checkArguments a b step = .error .ZeroStep ↔ step = 0 := by
  unfold checkArguments
  split
  · simp [*]
  · split
    · split <;> simp [*]
    · simp [*]

lemma checkArguments_dirmismatch_iff {a b step : Int} :
    checkArguments a b step = .error .DirectionMismatch ↔
      step ≠ 0 ∧ directionOk a b step = false := by
  unfold checkArguments
  split
  · simp [*]
  · split
    · split <;> simp [*]
    · simp [*]

lemma checkArguments_toolarge_iff {a b step : Int} :
    checkArguments a b step = .error .ResultTooLarge ↔
      step ≠ 0 ∧ directionOk a b step = true ∧
        kMaxResultEntries < sequenceCount128 a b step := by
  unfold checkArguments
  split
  · simp [*]
  · split
    · split <;> simp [*]
    · simp [*]

/-! ### Write-loop characterisation -/

lemma writeSeq_out {T : Type} (d : SeqDomain T) (start : T) (step : Int)
    (base : Nat) :
    ∀ (n : Nat) (buf : Nat → T) (j : Nat), j < base ∨ base + n ≤ j →
      writeSeq d start step base n buf j = buf j := by
  intro n
  induction n with
  | zero => intro buf j h; rfl
  | succ m ih =>
      intro buf j h
      show Function.update (writeSeq d start step base m buf) (base + m) _ j = buf j
      rw [Function.update_apply, if_neg (by omega)]
      exact ih buf j (by omega)

lemma writeSeq_in {T : Type} (d : SeqDomain T) (start : T) (step : Int)
    (base : Nat) :
    ∀ (n : Nat) (buf : Nat → T) (i : Nat), i < n →
      writeSeq d start step base n buf (base + i) =
        d.add start (wrap64 (step * (i : Int))) := by
  intro n
  induction n with
  | zero => intro buf i h; omega
  | succ m ih =>
      intro buf i h
      show Function.update (writeSeq d start step base m buf) (base + m) _ (base + i) = _
      rw [Function.update_apply]
      by_cases hi : i = m
      · rw [if_pos (by omega), hi]
      · rw [if_neg (by omega)]
        exact ih buf i (by omega)

lemma writeSeq_slice {T : Type} (d : SeqDomain T) (start : T) (step : Int)
    (base n : Nat) (buf : Nat → T) :
    (List.range' base n).map (writeSeq d start step base n buf) =
      (List.range n).map fun i : Nat => d.add start (wrap64 (step * (i : Int))) := by
  rw [List.range'_eq_map_range, List.map_map]
  apply List.map_congr_left
  intro i hi
  rw [List.mem_range] at hi
  exact writeSeq_in d start step base n buf i hi

lemma directionOk_refl (a step : Int) : directionOk a a step = true := by
  unfold directionOk
  split <;> simp

lemma directionOk_false_iff {a b step : Int} (h0 : step ≠ 0) :
    directionOk a b step = false ↔ (0 < step ∧ b < a) ∨ (step < 0 ∧ a < b) := by
  rw [← Bool.not_eq_true, directionOk_iff]
  omega

lemma checkArguments_eval {a b step n : Int}
    (ha1 : -(2 ^ 63) ≤ a) (ha2 : a < 2 ^ 63)
    (hb1 : -(2 ^ 63) ≤ b) (hb2 : b < 2 ^ 63)
    (h0 : step ≠ 0) (hdir : directionOk a b step = true)
    (hn : (b - a).tdiv step + 1 = n) (hle : n ≤ 10000) :
    checkArguments a b step = .ok n := by
  have hseq := sequenceCount128_eq step ha1 ha2 hb1 hb2
  have hc := checkArguments_ok_of h0 hdir
    (by rw [hseq, hn]; unfold kMaxResultEntries; omega)
  rw [hseq, hn] at hc
  exact hc

lemma checkArguments_eval_toolarge {a b step : Int}
    (ha1 : -(2 ^ 63) ≤ a) (ha2 : a < 2 ^ 63)
    (hb1 : -(2 ^ 63) ≤ b) (hb2 : b < 2 ^ 63)
    (h0 : step ≠ 0) (hdir : directionOk a b step = true)
    (hbig : 10000 < (b - a).tdiv step + 1) :
    checkArguments a b step = .error .ResultTooLarge := by
  have hseq := sequenceCount128_eq step ha1 ha2 hb1 hb2
  exact checkArguments_toolarge_iff.mpr
    ⟨h0, hdir, by rw [hseq]; unfold kMaxResultEntries; omega⟩

/-! ### Claim theorems -/

/-- Claim C1: for a row that passed validation with derived `(start, step,
count)`, the fill pass writes `add(start, step * i)` into slot `i` for every
`i < count`, the written slice equals the exact arithmetic progression
`start, start + step, ...` (the `int64_t` wraparound in `step * i` and `add`
never fires), and the last value `v` satisfies `|v - stop| < |step|`. -/
theorem C1_fill_progression (startV stopV : Nat → Int)
    (stepV : Option (Nat → Int)) (row base : Nat) (buf : Nat → Int)
    (step n : Int)
    (ha1 : -(2 ^ 63) ≤ startV row) (ha2 : startV row < 2 ^ 63)
    (hb1 : -(2 ^ 63) ≤ stopV row) (hb2 : stopV row < 2 ^ 63)
    (hstep : rowStep intDomain startV stopV stepV row = .ok step)
    (hchk : checkArguments (startV row) (stopV row) step = .ok n) :
    (List.range' base n.toNat).map
        (writeToElements intDomain base n.toNat startV stopV stepV row buf) =
      (List.range n.toNat).map (fun i : Nat => startV row + step * (i : Int)) ∧
    |startV row + step * (n - 1) - stopV row| < |step| := by
  obtain ⟨h0, hdir, hn, hle⟩ := checkArguments_ok_inv hchk
  have hseq := sequenceCount128_eq step ha1 ha2 hb1 hb2
  have hnval : n = (stopV row - startV row).tdiv step + 1 := hn.trans hseq
  have hq0 : 0 ≤ (stopV row - startV row).tdiv step := by
    rcases directionOk_iff.mp hdir with ⟨hs, hab⟩ | ⟨hs, hba⟩
    · exact tdiv_nonneg_aligned (Or.inl ⟨by omega, hs⟩)
    · exact tdiv_nonneg_aligned (Or.inr ⟨by omega, by omega⟩)
  constructor
  · unfold writeToElements
    rw [hstep]
    rw [writeSeq_slice]
    apply List.map_congr_left
    intro i hi
    rw [List.mem_range] at hi
    have hiq : (i : Int) ≤ (stopV row - startV row).tdiv step := by omega
    have hbet := seq_elem_between h0 hdir (Int.ofNat_nonneg i) hiq
    have hlow : -(2 ^ 63) ≤ startV row + step * (i : Int) := by
      rcases hbet with ⟨l, r⟩ | ⟨l, r⟩ <;> linarith
    have hhigh : startV row + step * (i : Int) < 2 ^ 63 := by
      rcases hbet with ⟨l, r⟩ | ⟨l, r⟩ <;> linarith
    show wrap64 (startV row + wrap64 (step * (i : Int))) = _
    have habs := wrapInt_add_absorb 64 (startV row) (step * (i : Int))
    rw [wrap64, wrap64, habs]
    exact wrap64_eq_self hlow hhigh
  · have hq : n - 1 = (stopV row - startV row).tdiv step := by omega
    rw [hq]
    exact last_elem_near h0

/-- Witness for C1 at `sequence(1, 10, 2)`: the written slice is
`[1, 3, 5, 7, 9]` and `|9 - 10| < 2`. -/
theorem C1_witness :
    (List.range' 0 (5 : Int).toNat).map
        (writeToElements intDomain 0 (5 : Int).toNat (fun _ => (1 : Int))
          (fun _ => 10) (some fun _ => 2) 0 (fun _ => 0)) =
      (List.range (5 : Int).toNat).map (fun i : Nat => (1 : Int) + 2 * (i : Int)) ∧
    |(1 : Int) + 2 * (5 - 1) - 10| < |(2 : Int)| :=
  C1_fill_progression (fun _ => 1) (fun _ => 10) (some fun _ => 2) 0 0
    (fun _ => 0) 2 5 (by norm_num) (by norm_num) (by norm_num) (by norm_num)
    (by rfl)
    (checkArguments_eval (by norm_num) (by norm_num) (by norm_num) (by norm_num)
      (by norm_num) (by decide) (by decide) (by norm_num))

/-- Claim C2: the count is computed as `(stop - start)/step + 1` in 128-bit
arithmetic, and over the full signed 64-bit input range no intermediate
term wraps: the widened computation equals the exact integer value. -/
theorem C2_count_widened_exact (a b step : Int)
    (ha1 : -(2 ^ 63) ≤ a) (ha2 : a < 2 ^ 63)
    (hb1 : -(2 ^ 63) ≤ b) (hb2 : b < 2 ^ 63)
    (h0 : step ≠ 0) (hdir : directionOk a b step = true) :
    sequenceCount128 a b step = (b - a).tdiv step + 1 ∧
      ∀ n, checkArguments a b step = .ok n → n = (b - a).tdiv step + 1 := by
  have hseq := sequenceCount128_eq step ha1 ha2 hb1 hb2
  refine ⟨hseq, fun n hn => ?_⟩
  obtain ⟨_, _, hval, _⟩ := checkArguments_ok_inv hn
  exact hval.trans hseq

/-- Witness for C2 at the extreme span `start = -2^63`, `stop = 2^63 - 1`,
`step = 2^63 - 1`: the subtraction spans the full 64-bit range and the
count is exact. -/
theorem C2_witness :
    sequenceCount128 (-(2 ^ 63)) (2 ^ 63 - 1) (2 ^ 63 - 1) =
        ((2 ^ 63 - 1 : Int) - -(2 ^ 63)).tdiv (2 ^ 63 - 1) + 1 ∧
      ∀ n, checkArguments (-(2 ^ 63)) (2 ^ 63 - 1) (2 ^ 63 - 1) = .ok n →
        n = ((2 ^ 63 - 1 : Int) - -(2 ^ 63)).tdiv (2 ^ 63 - 1) + 1 :=
  C2_count_widened_exact (-(2 ^ 63)) (2 ^ 63 - 1) (2 ^ 63 - 1) (by norm_num)
    (by norm_num) (by norm_num) (by norm_num) (by norm_num)
    (by unfold directionOk; norm_num)

/-- Claim C3: validation fails with `ZeroStep` exactly when `step = 0`, with
`DirectionMismatch` exactly when the nonzero step's sign contradicts the
start-to-stop direction, and `start = stop` passes the direction check for
either step sign. -/
theorem C3_zero_and_direction_errors (a b step : Int) :
    (checkArguments a b step = .error .ZeroStep ↔ step = 0) ∧
    (checkArguments a b step = .error .DirectionMismatch ↔
      (0 < step ∧ b < a) ∨ (step < 0 ∧ a < b)) ∧
    (a = b → step ≠ 0 → checkArguments a b step ≠ .error .DirectionMismatch) := by
  refine ⟨checkArguments_zerostep_iff, ?_, ?_⟩
  · rw [checkArguments_dirmismatch_iff]
    constructor
    · rintro ⟨h0, hdir⟩
      exact (directionOk_false_iff h0).mp hdir
    · intro h
      have h0 : step ≠ 0 := by rcases h with ⟨hs, _⟩ | ⟨hs, _⟩ <;> omega
      exact ⟨h0, (directionOk_false_iff h0).mpr h⟩
  · intro hab h0 hcon
    rw [checkArguments_dirmismatch_iff] at hcon
    subst hab
    rw [directionOk_refl] at hcon
    cases hcon.2

/-- Witness for C3: `sequence(0, 5, 0)` raises `ZeroStep`,
`sequence(1, 10, -1)` raises `DirectionMismatch`, and `sequence(7, 7, -3)`
passes the direction check. -/
theorem C3_witness :
    checkArguments 0 5 0 = .error .ZeroStep ∧
      checkArguments 1 10 (-1) = .error .DirectionMismatch ∧
      checkArguments 7 7 (-3) ≠ .error .DirectionMismatch :=
  ⟨(C3_zero_and_direction_errors 0 5 0).1.mpr rfl,
   (C3_zero_and_direction_errors 1 10 (-1)).2.1.mpr (by norm_num),
   (C3_zero_and_direction_errors 7 7 (-3)).2.2 rfl (by norm_num)⟩

/-- Claim C4: with the zero-step and direction checks passed, a computed
count of at most 10000 succeeds and returns it, a computed count above
10000 fails with `ResultTooLarge`; `kMaxResultEntries` is 10000. -/
theorem C4_result_cap (a b step : Int)
    (ha1 : -(2 ^ 63) ≤ a) (ha2 : a < 2 ^ 63)
    (hb1 : -(2 ^ 63) ≤ b) (hb2 : b < 2 ^ 63)
    (h0 : step ≠ 0) (hdir : directionOk a b step = true) :
    kMaxResultEntries = 10000 ∧
    ((b - a).tdiv step + 1 ≤ 10000 →
      checkArguments a b step = .ok ((b - a).tdiv step + 1)) ∧
    (10000 < (b - a).tdiv step + 1 →
      checkArguments a b step = .error .ResultTooLarge) :=
  ⟨rfl, fun h => checkArguments_eval ha1 ha2 hb1 hb2 h0 hdir rfl h,
   fun h => checkArguments_eval_toolarge ha1 ha2 hb1 hb2 h0 hdir h⟩

/-- Witness for C4: `sequence(1, 10000)` has exactly 10000 entries and
succeeds; `sequence(1, 10001)` fails with `ResultTooLarge`. -/
theorem C4_witness :
    checkArguments 1 10000 1 = .ok 10000 ∧
      checkArguments 1 10001 1 = .error .ResultTooLarge := by
  constructor
  · have h := (C4_result_cap 1 10000 1 (by norm_num) (by norm_num) (by norm_num)
      (by norm_num) (by norm_num) (by decide)).2.1 (by decide)
    have e : ((10000 : Int) - 1).tdiv 1 + 1 = 10000 := by decide
    rw [e] at h
    exact h
  · exact (C4_result_cap 1 10001 1 (by norm_num) (by norm_num) (by norm_num)
      (by norm_num) (by norm_num) (by decide)).2.2 (by decide)

/-- Claim C5: step inference — no step column gives `+1`/`-1` by direction;
a supplied step in a non-Date domain is used unchanged; a supplied Date
step must be a whole-day multiple of `kMillisInDay` (else
`InvalidDateStepUnit`) and is divided by `kMillisInDay`. -/
theorem C5_step_inference (a b rawStep : Int) :
    (∀ isDate : Bool, getStep a b none isDate = .ok (if a ≤ b then 1 else -1)) ∧
    (getStep a b (some rawStep) false = .ok rawStep) ∧
    (kMillisInDay ∣ rawStep →
      getStep a b (some rawStep) true = .ok (rawStep / kMillisInDay)) ∧
    (¬kMillisInDay ∣ rawStep →
      getStep a b (some rawStep) true = .error .InvalidDateStepUnit) := by
  refine ⟨fun _ => rfl, rfl, ?_, ?_⟩
  · intro hdvd
    have ht : rawStep.tmod kMillisInDay = 0 := Int.tmod_eq_zero_of_dvd hdvd
    unfold getStep
    simp [ht, Int.tdiv_eq_ediv_of_dvd hdvd]
  · intro hdvd
    have ht : rawStep.tmod kMillisInDay ≠ 0 := fun h =>
      hdvd (Int.dvd_of_tmod_eq_zero h)
    unfold getStep
    simp [ht]

/-- Witness for C5: inferred `+1` and `-1` steps, an unchanged integer
step, a two-day Date step of 172'800'000 ms, and a 100 ms Date step
rejected. -/
theorem C5_witness :
    getStep 1 9 none false = .ok 1 ∧
    getStep 9 1 none true = .ok (-1) ∧
    getStep 0 0 (some 5) false = .ok 5 ∧
    getStep 0 0 (some 172800000) true = .ok 2 ∧
    getStep 0 0 (some 100) true = .error .InvalidDateStepUnit := by
  refine ⟨?_, ?_, (C5_step_inference 0 0 5).2.1, ?_, ?_⟩
  · have h := (C5_step_inference 1 9 0).1 false
    rw [if_pos (by norm_num)] at h
    exact h
  · have h := (C5_step_inference 9 1 0).1 true
    rw [if_neg (by norm_num)] at h
    exact h
  · have h := (C5_step_inference 0 0 172800000).2.2.1
      ⟨2, by norm_num [kMillisInDay]⟩
    have e : (172800000 : Int) / kMillisInDay = 2 := by
      norm_num [kMillisInDay]
    rw [e] at h
    exact h
  · apply (C5_step_inference 0 0 100).2.2.2
    rintro ⟨c, hc⟩
    unfold kMillisInDay at hc
    omega

/-- Claim C6: whenever validation succeeds the returned count is at least
one, and `start = stop` with any nonzero step succeeds with count one, the
single written element being the start value. -/
theorem C6_count_positive (a b step n : Int)
    (ha1 : -(2 ^ 63) ≤ a) (ha2 : a < 2 ^ 63)
    (hb1 : -(2 ^ 63) ≤ b) (hb2 : b < 2 ^ 63) :
    (checkArguments a b step = .ok n → 1 ≤ n) ∧
    (step ≠ 0 → checkArguments a a step = .ok 1) ∧
    (∀ buf : Nat → Int, writeSeq intDomain a step 0 1 buf 0 = a) := by
  refine ⟨?_, ?_, ?_⟩
  · intro hok
    obtain ⟨h0, hdir, hn, _⟩ := checkArguments_ok_inv hok
    have hseq := sequenceCount128_eq step ha1 ha2 hb1 hb2
    have hq0 : 0 ≤ (b - a).tdiv step := by
      rcases directionOk_iff.mp hdir with ⟨hs, hab⟩ | ⟨hs, hba⟩
      · exact tdiv_nonneg_aligned (Or.inl ⟨by omega, hs⟩)
      · exact tdiv_nonneg_aligned (Or.inr ⟨by omega, by omega⟩)
    have hval := hn.trans hseq
    omega
  · intro h0
    exact checkArguments_eval ha1 ha2 ha1 ha2 h0 (directionOk_refl a step)
      (by simp) (by norm_num)
  · intro buf
    have h := writeSeq_in intDomain a step 0 1 buf 0 (by norm_num)
    norm_num at h
    rw [h]
    have hz : wrap64 0 = 0 := wrap64_eq_self (by norm_num) (by norm_num)
    show wrap64 (a + wrap64 0) = a
    rw [hz, add_zero]
    exact wrap64_eq_self ha1 ha2

/-- Witness for C6 at `sequence(7, 7, -5)`: validation succeeds with count
one and the written element is `7`. -/
theorem C6_witness :
    checkArguments 7 7 (-5) = .ok 1 ∧
      writeSeq intDomain 7 (-5) 0 1 (fun _ => 0) 0 = 7 := by
  obtain ⟨h1, h2, h3⟩ := C6_count_positive 7 7 (-5) 1 (by norm_num) (by norm_num)
    (by norm_num) (by norm_num)
  exact ⟨h2 (by norm_num), h3 (fun _ => 0)⟩

/-- Claim C8: `add(v, 0) = v` in each element domain — reconstructing with
zero steps is the identity on every representable value — and for the
integer domain `toInt64` is the identity. -/
theorem C8_round_trip (v : Int) (hv1 : -(2 ^ 63) ≤ v) (hv2 : v < 2 ^ 63)
    (d : Date) (t : Timestamp) :
    intDomain.add v 0 = v ∧ dateDomain.add d 0 = d ∧
      timestampDomain.add t 0 = t ∧ intDomain.toInt64 v = v := by
  refine ⟨?_, ?_, ?_, rfl⟩
  · show wrap64 (v + 0) = v
    rw [add_zero]
    exact wrap64_eq_self hv1 hv2
  · show Date.mk (d.days + 0) = d
    rw [add_zero]
  · show Timestamp.mk (t.millis + 0) = t
    rw [add_zero]

/-- Witness for C8 at `v = 5`, `d = Date(3)`, `t = Timestamp(9 ms)`. -/
theorem C8_witness :
    intDomain.add 5 0 = 5 ∧ dateDomain.add ⟨3⟩ 0 = (⟨3⟩ : Date) ∧
      timestampDomain.add ⟨9⟩ 0 = (⟨9⟩ : Timestamp) ∧
      intDomain.toInt64 5 = 5 :=
  C8_round_trip 5 (by norm_num) (by norm_num) ⟨3⟩ ⟨9⟩

/-- Claim C10: in a Date row with a supplied step the whole-day check in
`getStep` runs before `checkArguments`: a 0 ms step passes it and then
fails with `ZeroStep`, while a non-whole-day step fails with
`InvalidDateStepUnit` for every start/stop, start = stop and mismatched
directions included. -/
theorem C10_date_check_order (startV stopV : Nat → Date) (row : Nat)
    (rawStep : Int) :
    rowResult dateDomain startV stopV (some fun _ => (0 : Int)) row =
        .error .ZeroStep ∧
      (¬kMillisInDay ∣ rawStep →
        rowResult dateDomain startV stopV (some fun _ => rawStep) row =
          .error .InvalidDateStepUnit) := by
  constructor
  · have hrs : rowStep dateDomain startV stopV (some fun _ => (0 : Int)) row =
        .ok 0 := by
      unfold rowStep getStep
      simp
    unfold rowResult
    rw [hrs]
    exact checkArguments_zerostep_iff.mpr rfl
  · intro hdvd
    have ht : rawStep.tmod kMillisInDay ≠ 0 := fun h =>
      hdvd (Int.dvd_of_tmod_eq_zero h)
    have hrs : rowStep dateDomain startV stopV (some fun _ => rawStep) row =
        .error .InvalidDateStepUnit := by
      unfold rowStep getStep
      simp [dateDomain, ht]
    unfold rowResult
    rw [hrs]

/-- Witness for C10: dates `(0, 5)` with a 0 ms step raise `ZeroStep`;
dates `(5, 0)` with a 100 ms step (direction also mismatched) raise
`InvalidDateStepUnit`. -/
theorem C10_witness :
    rowResult dateDomain (fun _ => ⟨0⟩) (fun _ => ⟨5⟩)
        (some fun _ => (0 : Int)) 0 = .error .ZeroStep ∧
      rowResult dateDomain (fun _ => ⟨5⟩) (fun _ => ⟨0⟩)
        (some fun _ => (100 : Int)) 0 = .error .InvalidDateStepUnit := by
  refine ⟨(C10_date_check_order (fun _ => ⟨0⟩) (fun _ => ⟨5⟩) 0 0).1,
    (C10_date_check_order (fun _ => ⟨5⟩) (fun _ => ⟨0⟩) 0 100).2 ?_⟩
  rintro ⟨c, hc⟩
  unfold kMillisInDay at hc
  omega

/-! ### Output-assembly lemmas -/

lemma rowSeq_length {T : Type} (d : SeqDomain T) (sV tV : Nat → T)
    (stepV : Option (Nat → Int)) (r : Nat) :
    (rowSeq d sV tV stepV r).length = rowSize d sV tV stepV r := by
  unfold rowSeq
  cases h : rowStep d sV tV stepV r with
  | error e => simp [rowSize, rowResult, h]
  | ok step => simp

lemma writeToElements_out {T : Type} (d : SeqDomain T) (base count : Nat)
    (sV tV : Nat → T) (stepV : Option (Nat → Int)) (r : Nat) (buf : Nat → T)
    (j : Nat) (h : j < base ∨ base + count ≤ j) :
    writeToElements d base count sV tV stepV r buf j = buf j := by
  unfold writeToElements
  cases hs : rowStep d sV tV stepV r with
  | error e => rfl
  | ok step => exact writeSeq_out d (sV r) step base count buf j h

lemma writeToElements_slice {T : Type} (d : SeqDomain T) (base : Nat)
    (sV tV : Nat → T) (stepV : Option (Nat → Int)) (r : Nat) (buf : Nat → T) :
    (List.range' base (rowSize d sV tV stepV r)).map
        (writeToElements d base (rowSize d sV tV stepV r) sV tV stepV r buf) =
      rowSeq d sV tV stepV r := by
  unfold writeToElements rowSeq
  cases hs : rowStep d sV tV stepV r with
  | error e =>
      have h0 : rowSize d sV tV stepV r = 0 := by
        unfold rowSize rowResult
        rw [hs]
      rw [h0]
      rfl
  | ok step => exact writeSeq_slice d (sV r) step base (rowSize d sV tV stepV r) buf

lemma sizePass_not_mem {T : Type} (d : SeqDomain T) (sV tV : Nat → T)
    (stepV : Option (Nat → Int)) :
    ∀ (sel : List Nat) (m : Nat → Nat) (r : Nat), r ∉ sel →
      sizePass d sV tV stepV sel m r = m r := by
  intro sel
  induction sel with
  | nil => intro m r _; rfl
  | cons row rest ih =>
      intro m r hr
      have h1 : r ≠ row := fun h => hr (h ▸ List.mem_cons_self row rest)
      have h2 : r ∉ rest := fun h => hr (List.mem_cons_of_mem row h)
      show sizePass d sV tV stepV rest (Function.update m row _) r = m r
      rw [ih _ r h2, Function.update_apply, if_neg h1]

lemma sizePass_mem {T : Type} (d : SeqDomain T) (sV tV : Nat → T)
    (stepV : Option (Nat → Int)) :
    ∀ (sel : List Nat) (m : Nat → Nat) (r : Nat), sel.Nodup → r ∈ sel →
      sizePass d sV tV stepV sel m r = rowSize d sV tV stepV r := by
  intro sel
  induction sel with
  | nil => intro m r _ hr; cases hr
  | cons row rest ih =>
      intro m r hnd hr
      obtain ⟨hrow, hrest⟩ := List.nodup_cons.mp hnd
      show sizePass d sV tV stepV rest (Function.update m row _) r = _
      rcases List.mem_cons.mp hr with heq | hmem
      · subst heq
        rw [sizePass_not_mem d sV tV stepV rest _ r hrow,
          Function.update_apply, if_pos rfl]
      · exact ih _ r hrest hmem

lemma foldl_add_eq_sum {α : Type} (f : α → Nat) :
    ∀ (l : List α) (n : Nat),
      List.foldl (fun acc x => acc + f x) n l = n + (l.map f).sum := by
  intro l
  induction l with
  | nil => intro n; simp
  | cons x xs ih =>
      intro n
      show List.foldl (fun acc y => acc + f y) (n + f x) xs = _
      rw [ih]
      simp
      omega

lemma length_flatMap {α β : Type} (l : List α) (f : α → List β) :
    (l.flatMap f).length = (l.map fun a => (f a).length).sum := by
  show (List.flatten (l.map f)).length = _
  rw [List.length_flatten, List.map_map]
  rfl

lemma mem_range'_bounds {s n j : Nat} (h : j ∈ List.range' s n) :
    s ≤ j ∧ j < s + n := by
  rw [List.mem_range'] at h
  obtain ⟨i, hi, rfl⟩ := h
  omega

lemma fillPass_spec {T : Type} (d : SeqDomain T) (sV tV : Nat → T)
    (stepV : Option (Nat → Int)) (sizes : Nat → Nat) :
    ∀ (sel : List Nat) (s : FillState T), sel.Nodup →
      (∀ r ∈ sel, sizes r = rowSize d sV tV stepV r) →
      (fillPass d sV tV stepV sizes sel s).next
          = s.next + (sel.map fun r => sizes r).sum ∧
      (∀ j, j < s.next →
        (fillPass d sV tV stepV sizes sel s).buf j = s.buf j) ∧
      (List.range' s.next ((sel.map fun r => sizes r).sum)).map
          (fillPass d sV tV stepV sizes sel s).buf
        = sel.flatMap (rowSeq d sV tV stepV) ∧
      (∀ r, r ∉ sel → (fillPass d sV tV stepV sizes sel s).offs r = s.offs r) ∧
      (∀ r ∈ sel, sizes r = 0 →
        (fillPass d sV tV stepV sizes sel s).offs r = s.offs r) ∧
      (∀ pre r post, sel = pre ++ r :: post → sizes r ≠ 0 →
        (fillPass d sV tV stepV sizes sel s).offs r
          = s.next + (pre.map fun x => sizes x).sum) := by
  intro sel
  induction sel with
  | nil =>
      intro s _ _
      refine ⟨by simp [fillPass], fun j _ => rfl, by simp [fillPass],
        fun r _ => rfl, fun r hr _ => absurd hr (List.not_mem_nil r), ?_⟩
      intro pre r post hdec _
      exfalso
      cases pre <;> simp at hdec
  | cons row rest ih =>
      intro s hnd hsz
      obtain ⟨hrow, hrest⟩ := List.nodup_cons.mp hnd
      have hszr : ∀ r ∈ rest, sizes r = rowSize d sV tV stepV r :=
        fun r hr => hsz r (List.mem_cons_of_mem row hr)
      by_cases hc : sizes row = 0
      · have hstep : fillPass d sV tV stepV sizes (row :: rest) s
            = fillPass d sV tV stepV sizes rest s := by
          show (if sizes row ≠ 0 then _ else _) = _
          rw [if_neg (not_not_intro hc)]
        obtain ⟨ihnext, ihbuf, ihslice, ihoffs, ihoffz, ihdec⟩ := ih s hrest hszr
        have hseq0 : rowSeq d sV tV stepV row = [] := by
          apply List.eq_nil_of_length_eq_zero
          rw [rowSeq_length, ← hsz row (List.mem_cons_self row rest)]
          exact hc
        refine ⟨?_, ?_, ?_, ?_, ?_, ?_⟩
        · rw [hstep, ihnext]
          simp [hc]
        · intro j hj
          rw [hstep]
          exact ihbuf j hj
        · rw [hstep]
          simp only [List.map_cons, List.sum_cons, hc, Nat.zero_add,
            List.flatMap_cons, hseq0, List.nil_append]
          exact ihslice
        · intro r hr
          rw [hstep]
          exact ihoffs r (fun h => hr (List.mem_cons_of_mem row h))
        · intro r hr hrz
          rcases List.mem_cons.mp hr with heq | hmem
          · subst heq
            rw [hstep]
            exact ihoffs r hrow
          · rw [hstep]
            exact ihoffz r hmem hrz
        · intro pre r post hdec hrnz
          cases pre with
          | nil =>
              injection hdec with h1 h2
              exact absurd (h1 ▸ hc) hrnz
          | cons p pre' =>
              injection hdec with h1 h2
              rw [hstep, ihdec pre' r post h2 hrnz]
              simp only [List.map_cons, List.sum_cons, ← h1, hc]
              omega
      · have hstep : fillPass d sV tV stepV sizes (row :: rest) s
            = fillPass d sV tV stepV sizes rest
                ⟨Function.update s.offs row s.next,
                 writeToElements d s.next (sizes row) sV tV stepV row s.buf,
                 s.next + sizes row⟩ := by
          show (if sizes row ≠ 0 then _ else _) = _
          rw [if_pos hc]
        obtain ⟨ihnext, ihbuf, ihslice, ihoffs, ihoffz, ihdec⟩ :=
          ih ⟨Function.update s.offs row s.next,
              writeToElements d s.next (sizes row) sV tV stepV row s.buf,
              s.next + sizes row⟩ hrest hszr
        refine ⟨?_, ?_, ?_, ?_, ?_, ?_⟩
        · rw [hstep, ihnext]
          show s.next + sizes row + (rest.map fun r => sizes r).sum = _
          simp only [List.map_cons, List.sum_cons]
          omega
        · intro j hj
          rw [hstep, ihbuf j (by show j < s.next + sizes row; omega)]
          exact writeToElements_out d s.next (sizes row) sV tV stepV row s.buf j
            (Or.inl hj)
        · have hchunk1 :
              (List.range' s.next (sizes row)).map
                  (fillPass d sV tV stepV sizes rest
                    ⟨Function.update s.offs row s.next,
                     writeToElements d s.next (sizes row) sV tV stepV row s.buf,
                     s.next + sizes row⟩).buf
                = rowSeq d sV tV stepV row := by
            have hcongr : ∀ j ∈ List.range' s.next (sizes row),
                (fillPass d sV tV stepV sizes rest
                    ⟨Function.update s.offs row s.next,
                     writeToElements d s.next (sizes row) sV tV stepV row s.buf,
                     s.next + sizes row⟩).buf j
                  = writeToElements d s.next (sizes row) sV tV stepV row s.buf j := by
              intro j hj
              obtain ⟨hj1, hj2⟩ := mem_range'_bounds hj
              exact ihbuf j (by show j < s.next + sizes row; omega)
            rw [List.map_congr_left hcongr,
              hsz row (List.mem_cons_self row rest)]
            exact writeToElements_slice d s.next sV tV stepV row s.buf
          rw [hstep]
          simp only [List.map_cons, List.sum_cons, List.flatMap_cons]
          rw [Nat.add_comm (sizes row), ← List.range'_append_1, List.map_append,
            hchunk1, ihslice]
        · intro r hr
          have h1 : r ≠ row := fun h => hr (h ▸ List.mem_cons_self row rest)
          have h2 : r ∉ rest := fun h => hr (List.mem_cons_of_mem row h)
          rw [hstep, ihoffs r h2]
          show Function.update s.offs row s.next r = s.offs r
          rw [Function.update_apply, if_neg h1]
        · intro r hr hrz
          have h1 : r ≠ row := fun h => hc (h ▸ hrz)
          rcases List.mem_cons.mp hr with heq | hmem
          · exact absurd heq h1
          · rw [hstep, ihoffz r hmem hrz]
            show Function.update s.offs row s.next r = s.offs r
            rw [Function.update_apply, if_neg h1]
        · intro pre r post hdec hrnz
          cases pre with
          | nil =>
              injection hdec with h1 h2
              subst h1
              rw [hstep, ihoffs row hrow]
              show Function.update s.offs row s.next row = _
              rw [Function.update_same]
              simp
          | cons p pre' =>
              injection hdec with h1 h2
              rw [hstep, ihdec pre' r post h2 hrnz]
              show s.next + sizes row + (pre'.map fun x => sizes x).sum = _
              simp only [List.map_cons, List.sum_cons, ← h1]
              omega

/-- Claim C7: output-assembly invariant of `apply` — the element buffer
length is the sum of the selected rows' sizes; scanning selected rows in
order, each row with nonzero size gets as offset the sum of the sizes of
the preceding selected rows and its slice holds exactly its sequence;
rows with zero size (or unselected rows) keep the default offset 0; the
nonempty slices tile the buffer exactly (the buffer is the concatenation
of the per-row sequences in selection order). -/
theorem C7_output_assembly {T : Type} (d : SeqDomain T) (dflt : T)
    (sel : List Nat) (sV tV : Nat → T) (stepV : Option (Nat → Int))
    (R : SeqResult T) (hnd : sel.Nodup)
    (hR : R = applyKernel d dflt sel sV tV stepV) :
    R.elems.length = (sel.map fun r => R.sizes r).sum ∧
    R.elems = sel.flatMap (rowSeq d sV tV stepV) ∧
    (∀ r ∈ sel, R.sizes r = rowSize d sV tV stepV r) ∧
    (∀ r, r ∉ sel → R.sizes r = 0) ∧
    (∀ pre r post, sel = pre ++ r :: post → R.sizes r ≠ 0 →
      R.offs r = (pre.map fun x => R.sizes x).sum ∧
      (R.elems.drop ((pre.map fun x => R.sizes x).sum)).take (R.sizes r)
        = rowSeq d sV tV stepV r) ∧
    (∀ r, r ∉ sel ∨ R.sizes r = 0 → R.offs r = 0) := by
  subst hR
  set sizes := sizePass d sV tV stepV sel (fun _ => 0) with hsz_def
  set F := fillPass d sV tV stepV sizes sel ⟨fun _ => 0, fun _ => dflt, 0⟩
    with hF_def
  have hszmem : ∀ r ∈ sel, sizes r = rowSize d sV tV stepV r :=
    fun r hr => sizePass_mem d sV tV stepV sel _ r hnd hr
  have hsznot : ∀ r, r ∉ sel → sizes r = 0 :=
    fun r hr => sizePass_not_mem d sV tV stepV sel _ r hr
  have htotal : List.foldl (fun acc row => acc + rowSize d sV tV stepV row) 0 sel
      = (sel.map fun r => sizes r).sum := by
    have hmapeq : (sel.map fun r => rowSize d sV tV stepV r)
        = sel.map fun r => sizes r :=
      List.map_congr_left fun r hr => (hszmem r hr).symm
    rw [foldl_add_eq_sum, Nat.zero_add, hmapeq]
  obtain ⟨fnext, fbuf, fslice, foffs, foffz, fdec⟩ :=
    fillPass_spec d sV tV stepV sizes sel ⟨fun _ => 0, fun _ => dflt, 0⟩ hnd
      hszmem
  have fslice' : (List.range' 0 ((sel.map fun r => sizes r).sum)).map F.buf
      = sel.flatMap (rowSeq d sV tV stepV) := fslice
  have helems : (applyKernel d dflt sel sV tV stepV).elems
      = sel.flatMap (rowSeq d sV tV stepV) := by
    show (List.range
        (List.foldl (fun acc row => acc + rowSize d sV tV stepV row) 0 sel)).map
        F.buf = _
    rw [htotal, List.range_eq_range']
    exact fslice'
  have hlen : (applyKernel d dflt sel sV tV stepV).elems.length
      = (sel.map fun r => sizes r).sum := by
    rw [helems, length_flatMap]
    apply congrArg List.sum
    apply List.map_congr_left
    intro x hx
    rw [rowSeq_length]
    exact (hszmem x hx).symm
  refine ⟨hlen, helems, hszmem, hsznot, ?_, ?_⟩
  · intro pre r post hdec hrnz
    have hrsel : r ∈ sel := by
      rw [hdec]
      exact List.mem_append_right pre (List.mem_cons_self r post)
    have hpresel : ∀ x ∈ pre, x ∈ sel := by
      intro x hx
      rw [hdec]
      exact List.mem_append_left _ hx
    have hlenpre : (pre.flatMap (rowSeq d sV tV stepV)).length
        = (pre.map fun x => sizes x).sum := by
      rw [length_flatMap]
      apply congrArg List.sum
      apply List.map_congr_left
      intro x hx
      rw [rowSeq_length]
      exact (hszmem x (hpresel x hx)).symm
    constructor
    · have h5 : F.offs r = 0 + (pre.map fun x => sizes x).sum :=
        fdec pre r post hdec hrnz
      rw [Nat.zero_add] at h5
      exact h5
    · have hseqlen : (rowSeq d sV tV stepV r).length = sizes r :=
        (rowSeq_length d sV tV stepV r).trans (hszmem r hrsel).symm
      show ((applyKernel d dflt sel sV tV stepV).elems.drop
          ((pre.map fun x => sizes x).sum)).take (sizes r) = _
      rw [helems, hdec, List.flatMap_append, List.flatMap_cons,
        List.drop_left' hlenpre, List.take_left' hseqlen]
  · intro r hcase
    rcases hcase with hnot | hzero
    · exact foffs r hnot
    · by_cases hmem : r ∈ sel
      · exact foffz r hmem hzero
      · exact foffs r hmem

/-- Witness for C7 on the batch with selected rows `[0, 2]`,
`sequence(1, 3)` in each row. -/
theorem C7_witness :
    (applyKernel intDomain 0 [0, 2] (fun _ => (1 : Int)) (fun _ => 3)
        none).elems.length
      = ([0, 2].map fun r =>
          (applyKernel intDomain 0 [0, 2] (fun _ => (1 : Int)) (fun _ => 3)
            none).sizes r).sum ∧
    (applyKernel intDomain 0 [0, 2] (fun _ => (1 : Int)) (fun _ => 3)
        none).elems
      = [0, 2].flatMap
          (rowSeq intDomain (fun _ => (1 : Int)) (fun _ => 3) none) ∧
    (∀ r ∈ [0, 2],
      (applyKernel intDomain 0 [0, 2] (fun _ => (1 : Int)) (fun _ => 3)
          none).sizes r
        = rowSize intDomain (fun _ => (1 : Int)) (fun _ => 3) none r) ∧
    (∀ r, r ∉ [0, 2] →
      (applyKernel intDomain 0 [0, 2] (fun _ => (1 : Int)) (fun _ => 3)
          none).sizes r = 0) ∧
    (∀ pre r post, [0, 2] = pre ++ r :: post →
      (applyKernel intDomain 0 [0, 2] (fun _ => (1 : Int)) (fun _ => 3)
          none).sizes r ≠ 0 →
      (applyKernel intDomain 0 [0, 2] (fun _ => (1 : Int)) (fun _ => 3)
            none).offs r
          = (pre.map fun x =>
              (applyKernel intDomain 0 [0, 2] (fun _ => (1 : Int)) (fun _ => 3)
                none).sizes x).sum ∧
        ((applyKernel intDomain 0 [0, 2] (fun _ => (1 : Int)) (fun _ => 3)
              none).elems.drop
            ((pre.map fun x =>
              (applyKernel intDomain 0 [0, 2] (fun _ => (1 : Int)) (fun _ => 3)
                none).sizes x).sum)).take
            ((applyKernel intDomain 0 [0, 2] (fun _ => (1 : Int)) (fun _ => 3)
              none).sizes r)
          = rowSeq intDomain (fun _ => (1 : Int)) (fun _ => 3) none r) ∧
    (∀ r, r ∉ [0, 2] ∨
        (applyKernel intDomain 0 [0, 2] (fun _ => (1 : Int)) (fun _ => 3)
          none).sizes r = 0 →
      (applyKernel intDomain 0 [0, 2] (fun _ => (1 : Int)) (fun _ => 3)
        none).offs r = 0) :=
  C7_output_assembly intDomain 0 [0, 2] (fun _ => (1 : Int)) (fun _ => 3) none
    (applyKernel intDomain 0 [0, 2] (fun _ => (1 : Int)) (fun _ => 3) none)
    (by simp) rfl

/-! ### Purity / determinism -/

lemma rowStep_congr {T : Type} (d : SeqDomain T) {sV tV sV' tV' : Nat → T}
    {stepV stepV' : Option (Nat → Int)} {r : Nat}
    (hs : sV r = sV' r) (ht : tV r = tV' r)
    (hst : Option.map (fun f => f r) stepV = Option.map (fun f => f r) stepV') :
    rowStep d sV tV stepV r = rowStep d sV' tV' stepV' r := by
  unfold rowStep
  rw [hs, ht, hst]

lemma rowSize_congr {T : Type} (d : SeqDomain T) {sV tV sV' tV' : Nat → T}
    {stepV stepV' : Option (Nat → Int)} {r : Nat}
    (hs : sV r = sV' r) (ht : tV r = tV' r)
    (hst : Option.map (fun f => f r) stepV = Option.map (fun f => f r) stepV') :
    rowSize d sV tV stepV r = rowSize d sV' tV' stepV' r := by
  unfold rowSize rowResult rowStep
  rw [hs, ht, hst]

lemma writeToElements_congr {T : Type} (d : SeqDomain T) (base count : Nat)
    {sV tV sV' tV' : Nat → T} {stepV stepV' : Option (Nat → Int)} {r : Nat}
    (hs : sV r = sV' r) (ht : tV r = tV' r)
    (hst : Option.map (fun f => f r) stepV = Option.map (fun f => f r) stepV')
    (buf : Nat → T) :
    writeToElements d base count sV tV stepV r buf
      = writeToElements d base count sV' tV' stepV' r buf := by
  unfold writeToElements rowStep
  rw [hs, ht, hst]

lemma sizePass_congr {T : Type} (d : SeqDomain T) {sV tV sV' tV' : Nat → T}
    {stepV stepV' : Option (Nat → Int)} :
    ∀ (sel : List Nat) (m : Nat → Nat),
      (∀ r ∈ sel, sV r = sV' r) → (∀ r ∈ sel, tV r = tV' r) →
      (∀ r ∈ sel,
        Option.map (fun f => f r) stepV = Option.map (fun f => f r) stepV') →
      sizePass d sV tV stepV sel m = sizePass d sV' tV' stepV' sel m := by
  intro sel
  induction sel with
  | nil => intro m _ _ _; rfl
  | cons row rest ih =>
      intro m hs ht hst
      show sizePass d sV tV stepV rest
          (Function.update m row (rowSize d sV tV stepV row)) = _
      rw [rowSize_congr d (hs row (List.mem_cons_self row rest))
        (ht row (List.mem_cons_self row rest))
        (hst row (List.mem_cons_self row rest))]
      exact ih _ (fun r hr => hs r (List.mem_cons_of_mem row hr))
        (fun r hr => ht r (List.mem_cons_of_mem row hr))
        (fun r hr => hst r (List.mem_cons_of_mem row hr))

lemma fillPass_congr {T : Type} (d : SeqDomain T) {sV tV sV' tV' : Nat → T}
    {stepV stepV' : Option (Nat → Int)} (sizes : Nat → Nat) :
    ∀ (sel : List Nat) (s : FillState T),
      (∀ r ∈ sel, sV r = sV' r) → (∀ r ∈ sel, tV r = tV' r) →
      (∀ r ∈ sel,
        Option.map (fun f => f r) stepV = Option.map (fun f => f r) stepV') →
      fillPass d sV tV stepV sizes sel s = fillPass d sV' tV' stepV' sizes sel s := by
  intro sel
  induction sel with
  | nil => intro s _ _ _; rfl
  | cons row rest ih =>
      intro s hs ht hst
      have hs' := fun r hr => hs r (List.mem_cons_of_mem row hr)
      have ht' := fun r hr => ht r (List.mem_cons_of_mem row hr)
      have hst' := fun r hr => hst r (List.mem_cons_of_mem row hr)
      by_cases hc : sizes row = 0
      · show (if sizes row ≠ 0 then _ else _) = (if sizes row ≠ 0 then _ else _)
        rw [if_neg (not_not_intro hc), if_neg (not_not_intro hc)]
        exact ih s hs' ht' hst'
      · show (if sizes row ≠ 0 then _ else _) = (if sizes row ≠ 0 then _ else _)
        rw [if_pos hc, if_pos hc,
          writeToElements_congr d s.next (sizes row)
            (hs row (List.mem_cons_self row rest))
            (ht row (List.mem_cons_self row rest))
            (hst row (List.mem_cons_self row rest)) s.buf]
        exact ih _ hs' ht' hst'

/-- Claim C9: the kernel is a pure, deterministic, stateless function of
the batch: its whole output (sizes, offsets and elements) depends only on
the selection list and the column values at the selected rows, so two runs
over equal inputs produce identical output. -/
theorem C9_pure_function {T : Type} (d : SeqDomain T) (dflt : T)
    (sel : List Nat) (sV tV sV' tV' : Nat → T)
    (stepV stepV' : Option (Nat → Int))
    (hs : ∀ r ∈ sel, sV r = sV' r) (ht : ∀ r ∈ sel, tV r = tV' r)
    (hst : ∀ r ∈ sel,
      Option.map (fun f => f r) stepV = Option.map (fun f => f r) stepV') :
    applyKernel d dflt sel sV tV stepV = applyKernel d dflt sel sV' tV' stepV' := by
  have h1 : sizePass d sV tV stepV sel (fun _ => 0)
      = sizePass d sV' tV' stepV' sel (fun _ => 0) :=
    sizePass_congr d sel _ hs ht hst
  have h2 : List.foldl (fun acc row => acc + rowSize d sV tV stepV row) 0 sel
      = List.foldl (fun acc row => acc + rowSize d sV' tV' stepV' row) 0 sel := by
    rw [foldl_add_eq_sum, foldl_add_eq_sum]
    apply congrArg
    apply congrArg List.sum
    exact List.map_congr_left fun r hr =>
      rowSize_congr d (hs r hr) (ht r hr) (hst r hr)
  have h3 : fillPass d sV tV stepV (sizePass d sV' tV' stepV' sel fun _ => 0) sel
        ⟨fun _ => 0, fun _ => dflt, 0⟩
      = fillPass d sV' tV' stepV'
          (sizePass d sV' tV' stepV' sel fun _ => 0) sel
          ⟨fun _ => 0, fun _ => dflt, 0⟩ :=
    fillPass_congr d _ sel _ hs ht hst
  show (⟨sizePass d sV tV stepV sel fun _ => 0,
      (fillPass d sV tV stepV (sizePass d sV tV stepV sel fun _ => 0) sel
        ⟨fun _ => 0, fun _ => dflt, 0⟩).offs,
      (List.range
          (List.foldl (fun acc row => acc + rowSize d sV tV stepV row) 0 sel)).map
        (fillPass d sV tV stepV (sizePass d sV tV stepV sel fun _ => 0) sel
          ⟨fun _ => 0, fun _ => dflt, 0⟩).buf⟩ : SeqResult T)
    = ⟨sizePass d sV' tV' stepV' sel fun _ => 0,
      (fillPass d sV' tV' stepV' (sizePass d sV' tV' stepV' sel fun _ => 0) sel
        ⟨fun _ => 0, fun _ => dflt, 0⟩).offs,
      (List.range
          (List.foldl (fun acc row => acc + rowSize d sV' tV' stepV' row) 0 sel)).map
        (fillPass d sV' tV' stepV' (sizePass d sV' tV' stepV' sel fun _ => 0) sel
          ⟨fun _ => 0, fun _ => dflt, 0⟩).buf⟩
  rw [h1, h2, h3]

/-- Witness for C9: two decodings that agree on the only selected row
produce identical kernel output. -/
theorem C9_witness :
    applyKernel intDomain 0 [0] (fun _ => (1 : Int)) (fun _ => 2) none
      = applyKernel intDomain 0 [0] (fun r => if r = 0 then (1 : Int) else 5)
          (fun r => if r = 0 then (2 : Int) else 7) none :=
  C9_pure_function intDomain 0 [0] _ _ _ _ none none
    (by intro r hr; simp at hr; subst hr; norm_num)
    (by intro r hr; simp at hr; subst hr; norm_num)
    (fun r _ => rfl)

end Velox
